import Mathlib

/-!
Shallow embedding of the microdot graph command engine (`graph.rs`) and of
the structured-text (GraphViz) backend (`graphviz.rs`), together with
theorems settling the specification's claims about them.

Modelling conventions: the Rust `usize` counters only ever grow by 1 on
tiny interactive graphs, so they are modelled as `Nat`; `Id` and `Label`
are string newtypes compared by equality and are modelled as `String`;
`apply_command(&mut self, ..) -> CommandResult` is modelled by explicit
state passing, returning the updated graph together with the message.
-/

namespace Microdot

/-- `CommandResult` carries the human-readable message of a command. -/
abbrev CommandResult := String

/-- `CommandResult::new`. -/
def CommandResult.new (s : String) : CommandResult := s

/-- `struct Node { id: Id, label: Label }`. -/
structure Node where
  id : String
  label : String
deriving DecidableEq, Repr

/-- `struct Edge { id: Id, from: Id, to: Id }`. -/
structure Edge where
  id : String
  «from» : String
  «to» : String
deriving DecidableEq, Repr

/-- `struct Graph`: the two id counters and the node and edge vectors. -/
structure Graph where
  node_high_water : Nat
  edge_high_water : Nat
  nodes : List Node
  edges : List Edge
deriving DecidableEq, Repr

/-- `Graph::default()` / `Graph::new()`. -/
def Graph.new : Graph :=
  { node_high_water := 0, edge_high_water := 0, nodes := [], edges := [] }

/-- `Graph::next_node_id` (`format!("n{}", self.node_high_water)`, then
increment); returns the issued id and the updated graph. -/
def Graph.next_node_id (g : Graph) : String × Graph :=
  ("n" ++ Nat.repr g.node_high_water,
   { g with node_high_water := g.node_high_water + 1 })

/-- `Graph::next_edge_id` (`format!("e{}", self.edge_high_water)`, then
increment); returns the issued id and the updated graph. -/
def Graph.next_edge_id (g : Graph) : String × Graph :=
  ("e" ++ Nat.repr g.edge_high_water,
   { g with edge_high_water := g.edge_high_water + 1 })

/-- Index of the first element satisfying `p`, if any: the Rust
`iter().enumerate().find(..).map(|(idx, _)| idx)` pattern. -/
def firstIdx (p : α → Bool) : List α → Option Nat
  | [] => none
  | a :: as => if p a then some 0 else Option.map (· + 1) (firstIdx p as)

/-- `Graph::find_edge_idx`: linear scan for the first edge with this id. -/
def Graph.find_edge_idx (g : Graph) (id : String) : Option Nat :=
  firstIdx (fun e => e.id == id) g.edges

/-- `Graph::find_node_idx`: linear scan for the first node with this id. -/
def Graph.find_node_idx (g : Graph) (id : String) : Option Nat :=
  firstIdx (fun n => n.id == id) g.nodes

/-- The `Exporter` trait as a record of callbacks transforming a backend
state `σ`.  `add_edge` has the arity with which `Graph::export` actually
invokes it: two arguments, the edge endpoints. -/
structure ExporterImpl (σ : Type) where
  set_direction : σ → Bool → σ
  add_node : σ → String → String → σ
  add_edge : σ → String → String → σ

/-- `Graph::export`: walk every node (calling `add_node(&node.id,
&node.label)`), then every edge (calling the edge callback on the pair
`(&edge.from, &edge.to)`
— the source passes the endpoints only, not the edge id). -/
def Graph.export {σ : Type} (g : Graph) (E : ExporterImpl σ) (s : σ) : σ :=
  g.edges.foldl (fun s e => E.add_edge s e.«from» e.«to»)
    (g.nodes.foldl (fun s n => E.add_node s n.id n.label) s)

/-- One observed Exporter callback, recording the argument values passed. -/
inductive ExportEvent where
  | setDirection (is_left_right : Bool)
  | addNode (args : List String)
  | addEdge (args : List String)
deriving DecidableEq, Repr

/-- The exporter backend that records every callback with its arguments. -/
def traceExporter : ExporterImpl (List ExportEvent) where
  set_direction t b := t ++ [ExportEvent.setDirection b]
  add_node t id label := t ++ [ExportEvent.addNode [id, label]]
  add_edge t a b := t ++ [ExportEvent.addEdge [a, b]]

/-- `GraphCommand`, with the variants matched in `Graph::apply_command`
(the enum itself is declared in the crate root, alongside this file). -/
inductive GraphCommand where
  | insertNode (label : String)
  | deleteNode (id : String)
  | linkEdge («from» «to» : String)
  | renameNode (id label : String)
  | unlinkEdge (id : String)
deriving DecidableEq, Repr

/-- The edge-collection loop of `DeleteNode`: ids of the edges whose
`from` or `to` equals `id`, deduplicated by edge id as collected. -/
def Graph.edges_touching (g : Graph) (id : String) : List String :=
  g.edges.foldl
    (fun acc e =>
      if (e.«from» == id || e.«to» == id) && !(acc.contains e.id) then acc ++ [e.id]
      else acc)
    []

/-- The removal loop of `DeleteNode`: for each collected id, find the
first edge with that id and remove it (`Vec::remove` shifts left). -/
def removeEdgesById (es : List Edge) (ds : List String) : List Edge :=
  ds.foldl
    (fun es d =>
      match firstIdx (fun e => e.id == d) es with
      | some i => es.eraseIdx i
      | none => es)
    es

/-- The edge-removal phase of `DeleteNode`; in the source it runs to
completion before the node itself is removed. -/
def Graph.delete_edges_step (g : Graph) (id : String) : Graph :=
  { g with edges := removeEdgesById g.edges (g.edges_touching id) }

/-- The node-removal phase of `DeleteNode` (`self.nodes.remove(idx)`). -/
def Graph.delete_node_step (g : Graph) (idx : Nat) : Graph :=
  { g with nodes := g.nodes.eraseIdx idx }

/-- `Graph::apply_command`, state-passing: the updated graph plus the
`CommandResult` message (the sole observable return value). -/
def Graph.apply_command (g : Graph) : GraphCommand → Graph × CommandResult
  | GraphCommand.insertNode label =>
    let p := g.next_node_id
    ({ p.2 with nodes := p.2.nodes ++ [{ id := p.1, label := label }] },
     CommandResult.new ("inserted node " ++ p.1 ++ ": \x27" ++ label ++ "\x27"))
  | GraphCommand.deleteNode id =>
    match g.find_node_idx id with
    | some idx =>
      ((g.delete_edges_step id).delete_node_step idx,
       CommandResult.new ("node " ++ id ++ " removed"))
    | none => (g, CommandResult.new ("node " ++ id ++ " not found"))
  | GraphCommand.linkEdge fr t =>
    if !(g.find_node_idx fr).isSome then
      (g, CommandResult.new ("source node " ++ fr ++ " not found"))
    else if !(g.find_node_idx t).isSome then
      (g, CommandResult.new ("target node " ++ t ++ " not found"))
    else
      let p := g.next_edge_id
      ({ p.2 with edges := p.2.edges ++ [{ id := p.1, «from» := fr, «to» := t }] },
       CommandResult.new ("Added edge " ++ p.1 ++ " from " ++ fr ++ " to " ++ t))
  | GraphCommand.renameNode id label =>
    match g.find_node_idx id with
    | some idx =>
      match g.nodes[idx]? with
      | some node =>
        ({ g with nodes := g.nodes.set idx { node with label := label } },
         CommandResult.new ("Node " ++ id ++ " renamed to \x27" ++ label ++ "\x27"))
      | none =>
        (g, CommandResult.new ("Could not find node at index " ++ Nat.repr idx))
    | none => (g, CommandResult.new ("Could not find node " ++ id))
  | GraphCommand.unlinkEdge id =>
    match g.find_edge_idx id with
    | some idx =>
      ({ g with edges := g.edges.eraseIdx idx },
       CommandResult.new ("edge " ++ id ++ " removed"))
    | none => (g, CommandResult.new ("edge " ++ id ++ " not found"))

/-- Apply a list of commands to the initially empty graph, in order. -/
def Graph.apply_all (cmds : List GraphCommand) : Graph :=
  cmds.foldl (fun g c => (g.apply_command c).1) Graph.new

/-- Iterate `next_node_id` `k` times, collecting the issued identifiers. -/
def Graph.issue_node_ids : Graph → Nat → List String × Graph
  | g, 0 => ([], g)
  | g, k + 1 =>
    let p := g.next_node_id
    let q := p.2.issue_node_ids k
    (p.1 :: q.1, q.2)

/-- Iterate `next_edge_id` `k` times, collecting the issued identifiers. -/
def Graph.issue_edge_ids : Graph → Nat → List String × Graph
  | g, 0 => ([], g)
  | g, k + 1 =>
    let p := g.next_edge_id
    let q := p.2.issue_edge_ids k
    (p.1 :: q.1, q.2)

/-- `escape_label` from `graphviz.rs`. -/
def escape_label (label : String) : String :=
  "\"" ++ ((label.replace "\n" "\\n ").replace "\"" "\\\"") ++ "\""

/-- `escape_id` from `graphviz.rs`. -/
def escape_id (id : String) : String :=
  "\"" ++ (id.replace "\"" "\\\"") ++ "\""

/-- `struct GraphVizExporter { inner_content, debug_mode }`. -/
structure GraphVizExporter where
  inner_content : String
  debug_mode : Bool
deriving DecidableEq, Repr

/-- `GraphVizExporter::new()`: empty content, debug (annotated) mode on. -/
def GraphVizExporter.new : GraphVizExporter :=
  { inner_content := "", debug_mode := true }

/-- `GraphVizExporter::set_direction`. -/
def GraphVizExporter.set_direction (ex : GraphVizExporter)
    (is_left_right : Bool) : GraphVizExporter :=
  { ex with inner_content := ex.inner_content ++
      "    graph [fontname = \"helvetica\" rankdir=" ++
      (if is_left_right then "LR" else "TB") ++ " ranksep=0.8 nodesep=0.4];" }

/-- `GraphVizExporter::add_node(id, label)`.  The debug-mode text wrapping
comes from the external `textwrap`/`hyphenation` crates and is modelled by
the function argument `fill`. -/
def GraphVizExporter.add_node (fill : String → String) (ex : GraphVizExporter)
    (id label : String) : GraphVizExporter :=
  let label_text := if ex.debug_mode then fill (id ++ ": " ++ label) else label
  { ex with inner_content := ex.inner_content ++
      "    " ++ escape_id id ++ " [label=" ++ escape_label label_text ++ "];\n" }

/-- `GraphVizExporter::add_edge(id, from, to)`: in debug (annotated) mode
the emitted edge line carries ` [label=<the id argument>]`. -/
def GraphVizExporter.add_edge (ex : GraphVizExporter) (id fr t : String) :
    GraphVizExporter :=
  let edge_label := if ex.debug_mode then " [label=" ++ id ++ "]" else ""
  { ex with inner_content := ex.inner_content ++
      "    " ++ escape_id fr ++ " -> " ++ escape_id t ++ edge_label ++ ";\n" }

/-- The Entity Store invariant: distinct node ids, distinct edge ids, all
ids drawn from below the corresponding high-water counter, and every edge
endpoint present among the current nodes. -/
def Invariant (g : Graph) : Prop :=
  (g.nodes.map Node.id).Nodup ∧
  (g.edges.map Edge.id).Nodup ∧
  (∀ n ∈ g.nodes, ∃ j < g.node_high_water, n.id = "n" ++ Nat.repr j) ∧
  (∀ e ∈ g.edges, ∃ j < g.edge_high_water, e.id = "e" ++ Nat.repr j) ∧
  (∀ e ∈ g.edges, e.«from» ∈ g.nodes.map Node.id ∧ e.«to» ∈ g.nodes.map Node.id)

/-- Fuel-free description of `Nat.toDigits 10`: the decimal digit
characters of `n`, most significant first. -/
def decDigits (n : Nat) : List Char :=
  if n < 10 then [Nat.digitChar n]
  else decDigits (n / 10) ++ [Nat.digitChar (n % 10)]
decreasing_by exact Nat.div_lt_self (by omega) (by omega)

/-- Numeric value of a decimal digit character. -/
def chVal (c : Char) : Nat := c.toNat - 48

/-- Value of a most-significant-first decimal digit string. -/
def digitsVal (cs : List Char) : Nat :=
  cs.foldl (fun a c => 10 * a + chVal c) 0

/-- Does the character list start with the given pattern? -/
def startsWith : List Char → List Char → Bool
  | _, [] => true
  | [], _ :: _ => false
  | a :: as, b :: bs => a == b && startsWith as bs

/-- Does the character list contain the pattern as a contiguous run? -/
def hasSub : List Char → List Char → Bool
  | hay, needle =>
    if startsWith hay needle then true
    else
      match hay with
      | [] => false
      | _ :: t => hasSub t needle

/-- The concrete graph used by several witnesses: two nodes and two
edges between them, built from the empty graph by commands. -/
def gEx : Graph :=
  Graph.apply_all
    [GraphCommand.insertNode "abc", GraphCommand.insertNode "def",
     GraphCommand.linkEdge "n0" "n1", GraphCommand.linkEdge "n1" "n0"]

/-- Same nodes and edges as `gEx`, different id counters. -/
def gEx2 : Graph :=
  { node_high_water := 41, edge_high_water := 97,
    nodes := gEx.nodes, edges := gEx.edges }

example :
    Graph.apply_all
      [GraphCommand.insertNode "abc", GraphCommand.insertNode "def",
       GraphCommand.linkEdge "n0" "n1", GraphCommand.deleteNode "n0"] =
    { node_high_water := 2, edge_high_water := 1,
      nodes := [{ id := "n1", label := "def" }], edges := [] } := by decide

example :
    (Graph.new.apply_command (GraphCommand.linkEdge "n5" "n6")).2 =
      "source node n5 not found" := by decide

/-! ### Decimal representation: `Nat.repr` is injective -/

theorem chVal_digitChar : ∀ n < 10, chVal (Nat.digitChar n) = n := by decide

theorem digitsVal_append_singleton (cs : List Char) (c : Char) :
    digitsVal (cs ++ [c]) = 10 * digitsVal cs + chVal c := by
  simp [digitsVal, List.foldl_append]

theorem digitsVal_decDigits (n : Nat) : digitsVal (decDigits n) = n := by
  induction n using Nat.strong_induction_on with
  | _ n ih =>
    rw [decDigits]
    by_cases h : n < 10
    · simp only [h, if_true]
      simpa [digitsVal] using chVal_digitChar n h
    · simp only [h, if_false, digitsVal_append_singleton]
      rw [ih (n / 10) (Nat.div_lt_self (by omega) (by omega)),
        chVal_digitChar (n % 10) (by omega)]
      omega

theorem toDigitsCore_eq_decDigits :
    ∀ (fuel n : Nat) (ds : List Char), n < fuel →
      Nat.toDigitsCore 10 fuel n ds = decDigits n ++ ds := by
  intro fuel
  induction fuel with
  | zero => omega
  | succ fuel ih =>
    intro n ds hlt
    rw [Nat.toDigitsCore]
    by_cases h : n / 10 = 0
    · have hn : n < 10 := by omega
      have : n % 10 = n := by omega
      simp [h, decDigits, hn, this]
    · have h1 : n / 10 < fuel := by omega
      have hn : ¬ n < 10 := by omega
      rw [if_neg h, ih (n / 10) _ h1]
      conv_rhs => rw [decDigits]
      rw [if_neg hn, List.append_assoc]
      rfl

theorem toDigits_eq_decDigits (n : Nat) :
    Nat.toDigits 10 n = decDigits n := by
  have h := toDigitsCore_eq_decDigits (n + 1) n [] (by omega)
  rw [List.append_nil] at h
  exact h

theorem natRepr_inj {m n : Nat} (h : Nat.repr m = Nat.repr n) : m = n := by
  have hd : Nat.toDigits 10 m = Nat.toDigits 10 n := congrArg String.data h
  rw [toDigits_eq_decDigits, toDigits_eq_decDigits] at hd
  have h2 := congrArg digitsVal hd
  rw [digitsVal_decDigits, digitsVal_decDigits] at h2
  exact h2

theorem string_data_append (a b : String) : (a ++ b).data = a.data ++ b.data := by
  cases a
  cases b
  rfl

theorem string_data_eq {a b : String} (h : a.data = b.data) : a = b :=
  congrArg String.mk h

theorem prefixRepr_inj (p : String) {m n : Nat}
    (h : p ++ Nat.repr m = p ++ Nat.repr n) : m = n := by
  have h2 := congrArg String.data h
  rw [string_data_append, string_data_append] at h2
  exact natRepr_inj (string_data_eq (List.append_cancel_left h2))

/-! ### Linear-scan lookup: `firstIdx` -/

theorem firstIdx_eq_none_iff {p : α → Bool} {l : List α} :
    firstIdx p l = none ↔ ∀ a ∈ l, p a = false := by
  induction l with
  | nil => simp [firstIdx]
  | cons a as ih =>
    by_cases h : p a
    · simp [firstIdx, h]
    · have hfa : p a = false := by simpa using h
      rw [firstIdx, if_neg h]
      simp only [Option.map_eq_none', ih]
      constructor
      · intro hall x hx
        rcases List.mem_cons.mp hx with rfl | hx
        · exact hfa
        · exact hall x hx
      · intro hall x hx
        exact hall x (List.mem_cons_of_mem a hx)

theorem firstIdx_some_get {p : α → Bool} :
    ∀ {l : List α} {i : Nat}, firstIdx p l = some i →
      ∃ h : i < l.length, p (l.get ⟨i, h⟩) = true := by
  intro l
  induction l with
  | nil => intro i h; simp [firstIdx] at h
  | cons a as ih =>
    intro i h
    by_cases hp : p a
    · rw [firstIdx, if_pos hp] at h
      obtain rfl : (0 : Nat) = i := Option.some.inj h
      exact ⟨Nat.succ_pos _, hp⟩
    · rw [firstIdx, if_neg hp] at h
      rcases Option.map_eq_some'.mp h with ⟨j, hj, rfl⟩
      obtain ⟨hlt, hpj⟩ := ih hj
      exact ⟨Nat.succ_lt_succ hlt, hpj⟩

theorem firstIdx_some_lt {p : α → Bool} {l : List α} {i : Nat}
    (h : firstIdx p l = some i) : i < l.length :=
  (firstIdx_some_get h).1

/-! ### Small list facts -/

theorem map_eraseIdx (f : α → β) :
    ∀ (l : List α) (i : Nat), (l.eraseIdx i).map f = (l.map f).eraseIdx i := by
  intro l
  induction l with
  | nil => intro i; rfl
  | cons a as ih =>
    intro i
    cases i with
    | zero => rfl
    | succ i => simp [List.eraseIdx, ih]

theorem mem_eraseIdx_of_ne :
    ∀ {l : List α} {i : Nat} {x : α}, x ∈ l → ∀ h : i < l.length,
      x ≠ l.get ⟨i, h⟩ → x ∈ l.eraseIdx i := by
  intro l
  induction l with
  | nil => intro i x hx; simp at hx
  | cons a as ih =>
    intro i x hx h hne
    cases i with
    | zero =>
      rcases List.mem_cons.mp hx with rfl | hx
      · exact absurd rfl hne
      · simpa [List.eraseIdx] using hx
    | succ i =>
      rcases List.mem_cons.mp hx with rfl | hx
      · simp [List.eraseIdx]
      · have : x ∈ as.eraseIdx i :=
          ih hx (Nat.lt_of_succ_lt_succ h) (by simpa using hne)
        simp [List.eraseIdx, this]

theorem get_not_mem_eraseIdx_of_nodup :
    ∀ {l : List α}, l.Nodup → ∀ {i : Nat} (h : i < l.length),
      l.get ⟨i, h⟩ ∉ l.eraseIdx i := by
  intro l
  induction l with
  | nil => intro _ i h; simp at h
  | cons a as ih =>
    intro hnd i h
    rcases List.nodup_cons.mp hnd with ⟨ha, has⟩
    cases i with
    | zero => simpa [List.eraseIdx] using ha
    | succ i =>
      intro hmem
      have hred : (a :: as).get ⟨i + 1, h⟩ =
          as.get ⟨i, Nat.lt_of_succ_lt_succ h⟩ := rfl
      rw [hred, List.eraseIdx] at hmem
      rcases List.mem_cons.mp hmem with heq | hmem
      · exact ha (heq ▸ (as.get_mem i (Nat.lt_of_succ_lt_succ h)))
      · exact ih has (Nat.lt_of_succ_lt_succ h) hmem

theorem contains_iff_mem {a : String} {l : List String} :
    l.contains a = true ↔ a ∈ l := by
  simp only [List.contains_iff_exists_mem_beq, beq_iff_eq]
  constructor
  · rintro ⟨b, hb, rfl⟩
    exact hb
  · intro h
    exact ⟨a, h, rfl⟩

theorem contains_false_iff {a : String} {l : List String} :
    l.contains a = false ↔ a ∉ l := by
  rw [← Bool.not_eq_true, not_iff_not]
  exact contains_iff_mem

theorem set_get?_self :
    ∀ (l : List α) (i : Nat) (a : α), l[i]? = some a → l.set i a = l := by
  intro l
  induction l with
  | nil => intro i a h; simp at h
  | cons x xs ih =>
    intro i a h
    cases i with
    | zero =>
      obtain rfl : x = a := by simpa using h
      rfl
    | succ i => simp [List.set, ih i a (by simpa using h)]

/-! ### The `DeleteNode` cascade, characterised -/

/-- An edge touches `id` when its `from` or `to` equals `id`. -/
theorem touch_foldl (id : String) :
    ∀ (es : List Edge) (acc : List String),
      (es.map Edge.id).Nodup →
      (∀ e ∈ es, acc.contains e.id = false) →
      es.foldl
        (fun acc e =>
          if (e.«from» == id || e.«to» == id) && !(acc.contains e.id) then
            acc ++ [e.id]
          else acc)
        acc
      = acc ++ (es.filter (fun e => e.«from» == id || e.«to» == id)).map Edge.id := by
  intro es
  induction es with
  | nil => intro acc _ _; simp
  | cons e es ih =>
    intro acc hnd hacc
    rw [List.map_cons] at hnd
    rcases List.nodup_cons.mp hnd with ⟨hid, hnd'⟩
    have hcontains : acc.contains e.id = false := hacc e (List.mem_cons_self e es)
    rw [List.foldl_cons]
    by_cases ht : (e.«from» == id || e.«to» == id) = true
    · rw [if_pos (by rw [ht, hcontains]; rfl)]
      rw [ih (acc ++ [e.id]) hnd' ?_]
      · conv_rhs => rw [List.filter_cons]
        rw [if_pos ht, List.map_cons]
        simp [List.append_assoc]
      · intro e' he'
        rw [contains_false_iff]
        intro hmem
        rcases List.mem_append.mp hmem with hmem | hmem
        · exact (contains_false_iff.mp (hacc e' (List.mem_cons_of_mem e he'))) hmem
        · have : e'.id = e.id := by simpa using hmem
          exact hid (this ▸ List.mem_map_of_mem Edge.id he')
    · rw [if_neg (by rw [Bool.not_eq_true] at ht; rw [ht]; simp)]
      rw [ih acc hnd' (fun e' he' => hacc e' (List.mem_cons_of_mem e he'))]
      rw [List.filter_cons_of_neg (by simpa using ht)]

theorem edges_touching_eq (g : Graph) (id : String)
    (h : (g.edges.map Edge.id).Nodup) :
    g.edges_touching id
      = (g.edges.filter (fun e => e.«from» == id || e.«to» == id)).map Edge.id := by
  have := touch_foldl id g.edges [] h (by intro e _; rfl)
  simpa [Graph.edges_touching] using this

theorem removeOne_eq_filter (d : String) :
    ∀ (es : List Edge), (es.map Edge.id).Nodup →
      (match firstIdx (fun e => e.id == d) es with
       | some i => es.eraseIdx i
       | none => es)
      = es.filter (fun e => !(e.id == d)) := by
  intro es
  induction es with
  | nil => intro _; rfl
  | cons e es ih =>
    intro hnd
    rw [List.map_cons] at hnd
    rcases List.nodup_cons.mp hnd with ⟨hid, hnd'⟩
    by_cases h : (e.id == d) = true
    · rw [firstIdx, if_pos h]
      have hd : e.id = d := by simpa using h
      show es = List.filter (fun e => !(e.id == d)) (e :: es)
      rw [List.filter_cons_of_neg (by simpa using h)]
      symm
      apply List.filter_eq_self.mpr
      intro e' he'
      have hne : e'.id ≠ d := by
        intro hcontra
        exact hid ((hd ▸ hcontra ▸ rfl : e'.id = e.id) ▸ List.mem_map_of_mem Edge.id he')
      simpa using hne
    · rw [firstIdx, if_neg h]
      have step :
          (match Option.map (· + 1) (firstIdx (fun e => e.id == d) es) with
           | some i => (e :: es).eraseIdx i
           | none => e :: es)
          = e :: (match firstIdx (fun e => e.id == d) es with
                  | some i => es.eraseIdx i
                  | none => es) := by
        cases hfi : firstIdx (fun e => e.id == d) es with
        | none => rfl
        | some i => rfl
      rw [step, ih hnd']
      rw [List.filter_cons_of_pos (by simpa using h)]

theorem removeEdgesById_eq_filter :
    ∀ (ds : List String) (es : List Edge), (es.map Edge.id).Nodup →
      removeEdgesById es ds = es.filter (fun e => !(ds.contains e.id)) := by
  intro ds
  induction ds with
  | nil =>
    intro es _
    rw [removeEdgesById, List.foldl_nil]
    symm
    apply List.filter_eq_self.mpr
    intro e _
    rfl
  | cons d ds ih =>
    intro es hnd
    rw [removeEdgesById, List.foldl_cons]
    have h1 := removeOne_eq_filter d es hnd
    have hnd2 : ((es.filter (fun e => !(e.id == d))).map Edge.id).Nodup :=
      hnd.sublist ((List.filter_sublist es).map Edge.id)
    calc
      List.foldl
          (fun es d =>
            match firstIdx (fun e => e.id == d) es with
            | some i => es.eraseIdx i
            | none => es)
          (match firstIdx (fun e => e.id == d) es with
           | some i => es.eraseIdx i
           | none => es)
          ds
        = removeEdgesById (es.filter (fun e => !(e.id == d))) ds :=
          congrArg (fun x => removeEdgesById x ds) h1
      _ = (es.filter (fun e => !(e.id == d))).filter (fun e => !(ds.contains e.id)) :=
          ih _ hnd2
      _ = es.filter (fun e => !((d :: ds).contains e.id)) := by
          rw [List.filter_filter]
          apply List.filter_congr
          intro e _
          simp only [List.contains_cons, Bool.not_or]
          rw [Bool.and_comm]

theorem mem_map_id_iff_exists {es : List Edge} {x : String} :
    x ∈ es.map Edge.id ↔ ∃ e ∈ es, e.id = x := by
  simp [List.mem_map]

theorem delete_edges_eq_filter (g : Graph) (id : String)
    (h : (g.edges.map Edge.id).Nodup) :
    (g.delete_edges_step id).edges
      = g.edges.filter (fun e => !(e.«from» == id || e.«to» == id)) := by
  show removeEdgesById g.edges (g.edges_touching id) = _
  rw [edges_touching_eq g id h, removeEdgesById_eq_filter _ _ h]
  apply List.filter_congr
  intro e he
  have step :
      ((g.edges.filter (fun e => e.«from» == id || e.«to» == id)).map Edge.id).contains e.id
        = (e.«from» == id || e.«to» == id) := by
    cases ht : (e.«from» == id || e.«to» == id) with
    | true =>
      apply contains_iff_mem.mpr
      exact List.mem_map_of_mem Edge.id (List.mem_filter.mpr ⟨he, ht⟩)
    | false =>
      apply contains_false_iff.mpr
      intro hmem
      rcases mem_map_id_iff_exists.mp hmem with ⟨e', he', heq⟩
      rcases List.mem_filter.mp he' with ⟨he'', ht'⟩
      have : e' = e := List.inj_on_of_nodup_map h he'' he heq
      rw [this] at ht'
      rw [ht'] at ht
      cases ht
  rw [step]

theorem get_map_at (f : α → β) (l : List α) {i : Nat} (h : i < l.length)
    (h2 : i < (l.map f).length) : (l.map f).get ⟨i, h2⟩ = f (l.get ⟨i, h⟩) := by
  simp

/-- C1: deleting a present node first removes every edge whose `from` or
`to` equals the id (collected deduplicated by edge id), strictly before
removing the node itself; afterwards no surviving edge references the id,
the node is gone, and the message reports the removal.  The `Nodup`
hypotheses are the Entity Store invariant, which holds for every graph
built through the API (see the C4 and C10 results below). -/
theorem C1_delete_node (g : Graph) (id : String) (idx : Nat)
    (hn : (g.nodes.map Node.id).Nodup)
    (he : (g.edges.map Edge.id).Nodup)
    (hfind : g.find_node_idx id = some idx) :
    (g.apply_command (GraphCommand.deleteNode id)).1
        = (g.delete_edges_step id).delete_node_step idx ∧
    id ∈ (g.delete_edges_step id).nodes.map Node.id ∧
    (g.edges_touching id).Nodup ∧
    (g.apply_command (GraphCommand.deleteNode id)).1.edges
        = g.edges.filter (fun e => !(e.«from» == id || e.«to» == id)) ∧
    (∀ e ∈ (g.apply_command (GraphCommand.deleteNode id)).1.edges,
        e.«from» ≠ id ∧ e.«to» ≠ id) ∧
    (g.apply_command (GraphCommand.deleteNode id)).1.nodes = g.nodes.eraseIdx idx ∧
    id ∉ (g.apply_command (GraphCommand.deleteNode id)).1.nodes.map Node.id ∧
    (g.apply_command (GraphCommand.deleteNode id)).2 = "node " ++ id ++ " removed" := by
  have happ : g.apply_command (GraphCommand.deleteNode id)
      = ((g.delete_edges_step id).delete_node_step idx,
         "node " ++ id ++ " removed") := by
    simp [Graph.apply_command, hfind, CommandResult.new]
  obtain ⟨hlt, hp⟩ := firstIdx_some_get hfind
  have hgetid : (g.nodes.get ⟨idx, hlt⟩).id = id := by simpa using hp
  have hlen : idx < (g.nodes.map Node.id).length := by simpa using hlt
  have hget : (g.nodes.map Node.id).get ⟨idx, hlen⟩ = id := by
    rw [get_map_at Node.id g.nodes hlt hlen]
    exact hgetid
  have hedges : (g.apply_command (GraphCommand.deleteNode id)).1.edges
      = g.edges.filter (fun e => !(e.«from» == id || e.«to» == id)) := by
    rw [happ]
    exact delete_edges_eq_filter g id he
  refine ⟨congrArg Prod.fst happ, ?_, ?_, hedges, ?_, ?_, ?_, congrArg Prod.snd happ⟩
  · show id ∈ g.nodes.map Node.id
    rw [← hgetid]
    exact List.mem_map_of_mem Node.id (g.nodes.get_mem idx hlt)
  · rw [edges_touching_eq g id he]
    exact he.sublist ((List.filter_sublist g.edges).map Edge.id)
  · intro e hme
    rw [hedges] at hme
    rcases List.mem_filter.mp hme with ⟨_, hpe⟩
    constructor
    · intro hcontra
      simp [hcontra] at hpe
    · intro hcontra
      simp [hcontra] at hpe
  · rw [happ]
    rfl
  · rw [happ]
    show id ∉ (g.nodes.eraseIdx idx).map Node.id
    rw [map_eraseIdx Node.id g.nodes idx, ← hget]
    exact get_not_mem_eraseIdx_of_nodup hn hlen

theorem C1_delete_node_witness :
    ("n0" ∉ (gEx.apply_command (GraphCommand.deleteNode "n0")).1.nodes.map Node.id ∧
     (∀ e ∈ (gEx.apply_command (GraphCommand.deleteNode "n0")).1.edges,
        e.«from» ≠ "n0" ∧ e.«to» ≠ "n0")) ∧
    (gEx.apply_command (GraphCommand.deleteNode "n0")).2 = "node n0 removed" := by
  have h := C1_delete_node gEx "n0" 0 (by decide) (by decide) (by decide)
  exact ⟨⟨h.2.2.2.2.2.2.1, h.2.2.2.2.1⟩, h.2.2.2.2.2.2.2⟩

/-- C2: `LinkEdge(from, to)` fails with no mutation at all (the graph,
counters included, is returned unchanged) iff an endpoint is absent; the
engine checks `from` first, so the first missing endpoint is the one the
message names; when both are present exactly one edge is appended, with a
freshly allocated id and the endpoints preserved exactly. -/
theorem C2_link_edge (g : Graph) (fr t : String) :
    (g.find_node_idx fr = none →
      g.apply_command (GraphCommand.linkEdge fr t)
        = (g, "source node " ++ fr ++ " not found")) ∧
    (g.find_node_idx fr ≠ none → g.find_node_idx t = none →
      g.apply_command (GraphCommand.linkEdge fr t)
        = (g, "target node " ++ t ++ " not found")) ∧
    (g.find_node_idx fr ≠ none → g.find_node_idx t ≠ none →
      (g.apply_command (GraphCommand.linkEdge fr t)).1
        = { g with
            edge_high_water := g.edge_high_water + 1,
            edges := g.edges ++
              [{ id := "e" ++ Nat.repr g.edge_high_water, «from» := fr, «to» := t }] } ∧
      (g.apply_command (GraphCommand.linkEdge fr t)).2
        = "Added edge " ++ ("e" ++ Nat.repr g.edge_high_water) ++ " from " ++ fr
            ++ " to " ++ t) ∧
    ((g.apply_command (GraphCommand.linkEdge fr t)).1 = g ↔
      (g.find_node_idx fr = none ∨ g.find_node_idx t = none)) := by
  refine ⟨?_, ?_, ?_, ?_⟩
  · intro hf
    simp [Graph.apply_command, hf, CommandResult.new]
  · intro hf ht
    rcases Option.ne_none_iff_exists'.mp hf with ⟨i, hi⟩
    simp [Graph.apply_command, hi, ht, CommandResult.new]
  · intro hf ht
    rcases Option.ne_none_iff_exists'.mp hf with ⟨i, hi⟩
    rcases Option.ne_none_iff_exists'.mp ht with ⟨j, hj⟩
    constructor
    · simp [Graph.apply_command, hi, hj, Graph.next_edge_id]
    · simp [Graph.apply_command, hi, hj, Graph.next_edge_id, CommandResult.new]
  · constructor
    · intro heq
      by_contra hcontra
      push_neg at hcontra
      rcases Option.ne_none_iff_exists'.mp hcontra.1 with ⟨i, hi⟩
      rcases Option.ne_none_iff_exists'.mp hcontra.2 with ⟨j, hj⟩
      have : (g.apply_command (GraphCommand.linkEdge fr t)).1.edge_high_water
          = g.edge_high_water + 1 := by
        simp [Graph.apply_command, hi, hj, Graph.next_edge_id]
      rw [heq] at this
      omega
    · intro habs
      rcases habs with hf | ht
      · simp [Graph.apply_command, hf]
      · cases hf : g.find_node_idx fr with
        | none => simp [Graph.apply_command, hf]
        | some i => simp [Graph.apply_command, hf, ht]

theorem C2_link_edge_witness :
    Graph.new.apply_command (GraphCommand.linkEdge "n5" "n6")
        = (Graph.new, "source node n5 not found") ∧
    (gEx.apply_command (GraphCommand.linkEdge "n0" "n1")).1.edges
        = gEx.edges ++ [{ id := "e2", «from» := "n0", «to» := "n1" }] := by
  have h1 := (C2_link_edge Graph.new "n5" "n6").1 (by decide)
  have h2 := ((C2_link_edge gEx "n0" "n1").2.2.1 (by decide) (by decide)).1
  refine ⟨h1, ?_⟩
  rw [h2]
  decide

/-! ### The Entity Store invariant is preserved by every command -/

theorem fresh_node_id (g : Graph)
    (h3 : ∀ n ∈ g.nodes, ∃ j < g.node_high_water, n.id = "n" ++ Nat.repr j) :
    "n" ++ Nat.repr g.node_high_water ∉ g.nodes.map Node.id := by
  intro hmem
  rcases List.mem_map.mp hmem with ⟨n, hn, hid⟩
  rcases h3 n hn with ⟨j, hj, hjid⟩
  rw [hjid] at hid
  have := prefixRepr_inj "n" hid
  omega

theorem fresh_edge_id (g : Graph)
    (h4 : ∀ e ∈ g.edges, ∃ j < g.edge_high_water, e.id = "e" ++ Nat.repr j) :
    "e" ++ Nat.repr g.edge_high_water ∉ g.edges.map Edge.id := by
  intro hmem
  rcases List.mem_map.mp hmem with ⟨e, he, hid⟩
  rcases h4 e he with ⟨j, hj, hjid⟩
  rw [hjid] at hid
  have := prefixRepr_inj "e" hid
  omega

theorem nodup_append_singleton {l : List String} {a : String}
    (h : l.Nodup) (ha : a ∉ l) : (l ++ [a]).Nodup := by
  rw [List.nodup_append]
  exact ⟨h, List.nodup_singleton a, by
    intro x hx hmem
    rw [List.mem_singleton] at hmem
    exact ha (hmem ▸ hx)⟩

theorem find_node_some_mem {g : Graph} {x : String} {i : Nat}
    (h : g.find_node_idx x = some i) : x ∈ g.nodes.map Node.id := by
  obtain ⟨hlt, hp⟩ := firstIdx_some_get h
  have : (g.nodes.get ⟨i, hlt⟩).id = x := by simpa using hp
  rw [← this]
  exact List.mem_map_of_mem Node.id (g.nodes.get_mem i hlt)

theorem invariant_step (g : Graph) (c : GraphCommand) (h : Invariant g) :
    Invariant (g.apply_command c).1 := by
  obtain ⟨h1, h2, h3, h4, h5⟩ := h
  cases c with
  | insertNode label =>
    have hnodes : (g.apply_command (GraphCommand.insertNode label)).1.nodes
        = g.nodes ++ [{ id := "n" ++ Nat.repr g.node_high_water, label := label }] := rfl
    have hedges : (g.apply_command (GraphCommand.insertNode label)).1.edges
        = g.edges := rfl
    have hnhw : (g.apply_command (GraphCommand.insertNode label)).1.node_high_water
        = g.node_high_water + 1 := rfl
    have hehw : (g.apply_command (GraphCommand.insertNode label)).1.edge_high_water
        = g.edge_high_water := rfl
    refine ⟨?_, ?_, ?_, ?_, ?_⟩
    · rw [hnodes]
      simp only [List.map_append, List.map_cons, List.map_nil]
      exact nodup_append_singleton h1 (fresh_node_id g h3)
    · rw [hedges]
      exact h2
    · intro n hn
      rw [hnodes] at hn
      rw [hnhw]
      rcases List.mem_append.mp hn with hn | hn
      · rcases h3 n hn with ⟨j, hj, hjid⟩
        exact ⟨j, by omega, hjid⟩
      · rw [List.mem_singleton] at hn
        exact ⟨g.node_high_water, by omega, by rw [hn]⟩
    · intro e he
      rw [hedges] at he
      rw [hehw]
      exact h4 e he
    · intro e he
      rw [hedges] at he
      rw [hnodes]
      rcases h5 e he with ⟨hf, ht⟩
      constructor
      · simp only [List.map_append]
        exact List.mem_append_left _ hf
      · simp only [List.map_append]
        exact List.mem_append_left _ ht
  | deleteNode id =>
    cases hfind : g.find_node_idx id with
    | none => simpa [Graph.apply_command, hfind] using ⟨h1, h2, h3, h4, h5⟩
    | some idx =>
      obtain ⟨hlt, hp⟩ := firstIdx_some_get hfind
      have hgetid : (g.nodes.get ⟨idx, hlt⟩).id = id := by simpa using hp
      have happ : (g.apply_command (GraphCommand.deleteNode id)).1
          = (g.delete_edges_step id).delete_node_step idx := by
        simp [Graph.apply_command, hfind]
      have hedges : (g.apply_command (GraphCommand.deleteNode id)).1.edges
          = g.edges.filter (fun e => !(e.«from» == id || e.«to» == id)) := by
        rw [happ]
        exact delete_edges_eq_filter g id h2
      have hnodes : (g.apply_command (GraphCommand.deleteNode id)).1.nodes
          = g.nodes.eraseIdx idx := by rw [happ]; rfl
      have hhw : (g.apply_command (GraphCommand.deleteNode id)).1.node_high_water
          = g.node_high_water ∧
          (g.apply_command (GraphCommand.deleteNode id)).1.edge_high_water
          = g.edge_high_water := by rw [happ]; exact ⟨rfl, rfl⟩
      refine ⟨?_, ?_, ?_, ?_, ?_⟩
      · rw [hnodes, map_eraseIdx]
        exact h1.sublist (List.eraseIdx_sublist _ idx)
      · rw [hedges]
        exact h2.sublist ((List.filter_sublist g.edges).map Edge.id)
      · intro n hn
        rw [hnodes] at hn
        rw [hhw.1]
        exact h3 n ((List.eraseIdx_sublist g.nodes idx).subset hn)
      · intro e he
        rw [hedges] at he
        rw [hhw.2]
        exact h4 e ((List.filter_sublist g.edges).subset he)
      · intro e he
        rw [hedges] at he
        rcases List.mem_filter.mp he with ⟨he', hpe⟩
        rcases h5 e he' with ⟨hf, ht⟩
        have hne_from : e.«from» ≠ id := by
          intro hcontra
          simp [hcontra] at hpe
        have hne_to : e.«to» ≠ id := by
          intro hcontra
          simp [hcontra] at hpe
        have hlen : idx < (g.nodes.map Node.id).length := by simpa using hlt
        have hget : (g.nodes.map Node.id).get ⟨idx, hlen⟩ = id := by
          rw [get_map_at Node.id g.nodes hlt hlen]
          exact hgetid
        rw [hnodes, map_eraseIdx]
        exact ⟨mem_eraseIdx_of_ne hf hlen (by rw [hget]; exact hne_from),
               mem_eraseIdx_of_ne ht hlen (by rw [hget]; exact hne_to)⟩
  | linkEdge fr t =>
    cases hf : g.find_node_idx fr with
    | none => simpa [Graph.apply_command, hf] using ⟨h1, h2, h3, h4, h5⟩
    | some i =>
      cases ht : g.find_node_idx t with
      | none => simpa [Graph.apply_command, hf, ht] using ⟨h1, h2, h3, h4, h5⟩
      | some j =>
        have hnodes : (g.apply_command (GraphCommand.linkEdge fr t)).1.nodes
            = g.nodes := by
          simp [Graph.apply_command, hf, ht, Graph.next_edge_id]
        have hedges : (g.apply_command (GraphCommand.linkEdge fr t)).1.edges
            = g.edges ++ [{ id := "e" ++ Nat.repr g.edge_high_water,
                            «from» := fr, «to» := t }] := by
          simp [Graph.apply_command, hf, ht, Graph.next_edge_id]
        have hnhw : (g.apply_command (GraphCommand.linkEdge fr t)).1.node_high_water
            = g.node_high_water := by
          simp [Graph.apply_command, hf, ht, Graph.next_edge_id]
        have hehw : (g.apply_command (GraphCommand.linkEdge fr t)).1.edge_high_water
            = g.edge_high_water + 1 := by
          simp [Graph.apply_command, hf, ht, Graph.next_edge_id]
        refine ⟨?_, ?_, ?_, ?_, ?_⟩
        · rw [hnodes]
          exact h1
        · rw [hedges]
          simp only [List.map_append, List.map_cons, List.map_nil]
          exact nodup_append_singleton h2 (fresh_edge_id g h4)
        · intro n hn
          rw [hnodes] at hn
          rw [hnhw]
          exact h3 n hn
        · intro e he
          rw [hedges] at he
          rw [hehw]
          rcases List.mem_append.mp he with he | he
          · rcases h4 e he with ⟨k, hk, hkid⟩
            exact ⟨k, by omega, hkid⟩
          · rw [List.mem_singleton] at he
            exact ⟨g.edge_high_water, by omega, by rw [he]⟩
        · intro e he
          rw [hedges] at he
          rw [hnodes]
          rcases List.mem_append.mp he with he | he
          · exact h5 e he
          · rw [List.mem_singleton] at he
            rw [he]
            exact ⟨find_node_some_mem hf, find_node_some_mem ht⟩
  | renameNode id label =>
    cases hfind : g.find_node_idx id with
    | none => simpa [Graph.apply_command, hfind] using ⟨h1, h2, h3, h4, h5⟩
    | some idx =>
      cases hget : g.nodes[idx]? with
      | none => simpa [Graph.apply_command, hfind, hget] using ⟨h1, h2, h3, h4, h5⟩
      | some node =>
        have hnodes : (g.apply_command (GraphCommand.renameNode id label)).1.nodes
            = g.nodes.set idx { node with label := label } := by
          simp [Graph.apply_command, hfind, hget]
        have hedges : (g.apply_command (GraphCommand.renameNode id label)).1.edges
            = g.edges := by
          simp [Graph.apply_command, hfind, hget]
        have hnhw : (g.apply_command (GraphCommand.renameNode id label)).1.node_high_water
            = g.node_high_water := by
          simp [Graph.apply_command, hfind, hget]
        have hehw : (g.apply_command (GraphCommand.renameNode id label)).1.edge_high_water
            = g.edge_high_water := by
          simp [Graph.apply_command, hfind, hget]
        have hids : (g.nodes.set idx { node with label := label }).map Node.id
            = g.nodes.map Node.id := by
          rw [List.map_set]
          show (g.nodes.map Node.id).set idx node.id = g.nodes.map Node.id
          apply set_get?_self
          rw [List.getElem?_map Node.id g.nodes idx, hget]
          rfl
        refine ⟨?_, ?_, ?_, ?_, ?_⟩
        · rw [hnodes, hids]
          exact h1
        · rw [hedges]
          exact h2
        · intro n hn
          rw [hnodes] at hn
          rw [hnhw]
          rcases List.mem_or_eq_of_mem_set hn with hn | hn
          · exact h3 n hn
          · have hnode_mem : node ∈ g.nodes := List.getElem?_mem hget
            rcases h3 node hnode_mem with ⟨j, hj, hjid⟩
            exact ⟨j, hj, by rw [hn]; exact hjid⟩
        · intro e he
          rw [hedges] at he
          rw [hehw]
          exact h4 e he
        · intro e he
          rw [hedges] at he
          rw [hnodes, hids]
          exact h5 e he
  | unlinkEdge id =>
    cases hfind : g.find_edge_idx id with
    | none => simpa [Graph.apply_command, hfind] using ⟨h1, h2, h3, h4, h5⟩
    | some idx =>
      have hnodes : (g.apply_command (GraphCommand.unlinkEdge id)).1.nodes
          = g.nodes := by
        simp [Graph.apply_command, hfind]
      have hedges : (g.apply_command (GraphCommand.unlinkEdge id)).1.edges
          = g.edges.eraseIdx idx := by
        simp [Graph.apply_command, hfind]
      have hnhw : (g.apply_command (GraphCommand.unlinkEdge id)).1.node_high_water
          = g.node_high_water := by
        simp [Graph.apply_command, hfind]
      have hehw : (g.apply_command (GraphCommand.unlinkEdge id)).1.edge_high_water
          = g.edge_high_water := by
        simp [Graph.apply_command, hfind]
      refine ⟨?_, ?_, ?_, ?_, ?_⟩
      · rw [hnodes]
        exact h1
      · rw [hedges, map_eraseIdx]
        exact h2.sublist (List.eraseIdx_sublist _ idx)
      · intro n hn
        rw [hnodes] at hn
        rw [hnhw]
        exact h3 n hn
      · intro e he
        rw [hedges] at he
        rw [hehw]
        exact h4 e ((List.eraseIdx_sublist g.edges idx).subset he)
      · intro e he
        rw [hedges] at he
        rw [hnodes]
        exact h5 e ((List.eraseIdx_sublist g.edges idx).subset he)

theorem invariant_new : Invariant Graph.new := by
  refine ⟨List.nodup_nil, List.nodup_nil, ?_, ?_, ?_⟩ <;> intro x hx <;> cases hx

theorem invariant_apply_all (cmds : List GraphCommand) :
    Invariant (Graph.apply_all cmds) := by
  suffices h : ∀ (cs : List GraphCommand) (g : Graph), Invariant g →
      Invariant (cs.foldl (fun g c => (g.apply_command c).1) g) by
    exact h cmds Graph.new invariant_new
  intro cs
  induction cs with
  | nil => intro g hg; exact hg
  | cons c cs ih =>
    intro g hg
    rw [List.foldl_cons]
    exact ih _ (invariant_step g c hg)

/-- C4: after any command sequence applied to the initially empty graph,
no two nodes share an id and no two edges share an id. -/
theorem C4_unique_ids (cmds : List GraphCommand) :
    ((Graph.apply_all cmds).nodes.map Node.id).Nodup ∧
    ((Graph.apply_all cmds).edges.map Edge.id).Nodup :=
  ⟨(invariant_apply_all cmds).1, (invariant_apply_all cmds).2.1⟩

/-- C10: from the empty graph, after any command sequence every edge's
`from` and `to` reference node ids currently present in the store. -/
theorem C10_referential_integrity (cmds : List GraphCommand) :
    ∀ e ∈ (Graph.apply_all cmds).edges,
      e.«from» ∈ (Graph.apply_all cmds).nodes.map Node.id ∧
      e.«to» ∈ (Graph.apply_all cmds).nodes.map Node.id :=
  (invariant_apply_all cmds).2.2.2.2

theorem C10_referential_integrity_witness :
    ({ id := "e0", «from» := "n0", «to» := "n1" } : Edge) ∈
      (Graph.apply_all
        [GraphCommand.insertNode "abc", GraphCommand.insertNode "def",
         GraphCommand.linkEdge "n0" "n1", GraphCommand.linkEdge "n1" "n0"]).edges ∧
    ("n0" ∈ (Graph.apply_all
        [GraphCommand.insertNode "abc", GraphCommand.insertNode "def",
         GraphCommand.linkEdge "n0" "n1", GraphCommand.linkEdge "n1" "n0"]).nodes.map Node.id ∧
     "n1" ∈ (Graph.apply_all
        [GraphCommand.insertNode "abc", GraphCommand.insertNode "def",
         GraphCommand.linkEdge "n0" "n1", GraphCommand.linkEdge "n1" "n0"]).nodes.map Node.id) :=
  ⟨by decide,
   C10_referential_integrity
     [GraphCommand.insertNode "abc", GraphCommand.insertNode "def",
      GraphCommand.linkEdge "n0" "n1", GraphCommand.linkEdge "n1" "n0"]
     { id := "e0", «from» := "n0", «to» := "n1" } (by decide)⟩

/-! ### The identifier allocator (C5) -/

theorem range_shift_cons (p : String) (hw k : Nat) :
    (List.range (k + 1)).map (fun i => p ++ Nat.repr (hw + i))
      = (p ++ Nat.repr hw) ::
          (List.range k).map (fun i => p ++ Nat.repr (hw + 1 + i)) := by
  rw [List.range_succ_eq_map, List.map_cons, List.map_map]
  congr 1
  apply List.map_congr_left
  intro i _
  show p ++ Nat.repr (hw + (i + 1)) = p ++ Nat.repr (hw + 1 + i)
  have harith : hw + (i + 1) = hw + 1 + i := by omega
  rw [harith]

theorem issue_node_ids_spec : ∀ (k : Nat) (g : Graph),
    g.issue_node_ids k
      = ((List.range k).map (fun i => "n" ++ Nat.repr (g.node_high_water + i)),
         { g with node_high_water := g.node_high_water + k }) := by
  intro k
  induction k with
  | zero => intro g; rfl
  | succ k ih =>
    intro g
    have hunfold : g.issue_node_ids (k + 1)
        = (("n" ++ Nat.repr g.node_high_water) ::
            ({ g with node_high_water := g.node_high_water + 1 }.issue_node_ids k).1,
           ({ g with node_high_water := g.node_high_water + 1 }.issue_node_ids k).2) := rfl
    rw [hunfold, ih { g with node_high_water := g.node_high_water + 1 },
      range_shift_cons]
    have harith : g.node_high_water + 1 + k = g.node_high_water + (k + 1) := by
      omega
    simp [harith]

theorem issue_edge_ids_spec : ∀ (k : Nat) (g : Graph),
    g.issue_edge_ids k
      = ((List.range k).map (fun i => "e" ++ Nat.repr (g.edge_high_water + i)),
         { g with edge_high_water := g.edge_high_water + k }) := by
  intro k
  induction k with
  | zero => intro g; rfl
  | succ k ih =>
    intro g
    have hunfold : g.issue_edge_ids (k + 1)
        = (("e" ++ Nat.repr g.edge_high_water) ::
            ({ g with edge_high_water := g.edge_high_water + 1 }.issue_edge_ids k).1,
           ({ g with edge_high_water := g.edge_high_water + 1 }.issue_edge_ids k).2) := rfl
    rw [hunfold, ih { g with edge_high_water := g.edge_high_water + 1 },
      range_shift_cons]
    have harith : g.edge_high_water + 1 + k = g.edge_high_water + (k + 1) := by
      omega
    simp [harith]

theorem prefix_counter_injective (p : String) (base : Nat) :
    Function.Injective (fun i => p ++ Nat.repr (base + i)) := by
  intro a b hab
  have := prefixRepr_inj p hab
  omega

theorem high_water_monotone (g : Graph) (c : GraphCommand) :
    g.node_high_water ≤ (g.apply_command c).1.node_high_water ∧
    g.edge_high_water ≤ (g.apply_command c).1.edge_high_water := by
  cases c with
  | insertNode label => exact ⟨Nat.le_succ _, Nat.le_refl _⟩
  | deleteNode id =>
    cases hfind : g.find_node_idx id with
    | none => simp [Graph.apply_command, hfind]
    | some idx =>
      have h1 : (g.apply_command (GraphCommand.deleteNode id)).1.node_high_water
          = g.node_high_water := by
        simp [Graph.apply_command, hfind, Graph.delete_node_step, Graph.delete_edges_step]
      have h2 : (g.apply_command (GraphCommand.deleteNode id)).1.edge_high_water
          = g.edge_high_water := by
        simp [Graph.apply_command, hfind, Graph.delete_node_step, Graph.delete_edges_step]
      rw [h1, h2]
      exact ⟨Nat.le_refl _, Nat.le_refl _⟩
  | linkEdge fr t =>
    cases hf : g.find_node_idx fr with
    | none => simp [Graph.apply_command, hf]
    | some i =>
      cases ht : g.find_node_idx t with
      | none => simp [Graph.apply_command, hf, ht]
      | some j =>
        have h1 : (g.apply_command (GraphCommand.linkEdge fr t)).1.node_high_water
            = g.node_high_water := by
          simp [Graph.apply_command, hf, ht, Graph.next_edge_id]
        have h2 : (g.apply_command (GraphCommand.linkEdge fr t)).1.edge_high_water
            = g.edge_high_water + 1 := by
          simp [Graph.apply_command, hf, ht, Graph.next_edge_id]
        rw [h1, h2]
        exact ⟨Nat.le_refl _, Nat.le_succ _⟩
  | renameNode id label =>
    cases hfind : g.find_node_idx id with
    | none => simp [Graph.apply_command, hfind]
    | some idx =>
      cases hget : g.nodes[idx]? with
      | none => simp [Graph.apply_command, hfind, hget]
      | some node =>
        have h1 : (g.apply_command (GraphCommand.renameNode id label)).1.node_high_water
            = g.node_high_water := by
          simp [Graph.apply_command, hfind, hget]
        have h2 : (g.apply_command (GraphCommand.renameNode id label)).1.edge_high_water
            = g.edge_high_water := by
          simp [Graph.apply_command, hfind, hget]
        rw [h1, h2]
        exact ⟨Nat.le_refl _, Nat.le_refl _⟩
  | unlinkEdge id =>
    cases hfind : g.find_edge_idx id with
    | none => simp [Graph.apply_command, hfind]
    | some idx =>
      have h1 : (g.apply_command (GraphCommand.unlinkEdge id)).1.node_high_water
          = g.node_high_water := by
        simp [Graph.apply_command, hfind]
      have h2 : (g.apply_command (GraphCommand.unlinkEdge id)).1.edge_high_water
          = g.edge_high_water := by
        simp [Graph.apply_command, hfind]
      rw [h1, h2]
      exact ⟨Nat.le_refl _, Nat.le_refl _⟩

/-- C5: iterating the allocators from any state issues the identifiers
`<prefix><counter>`, `<prefix><counter+1>`, …, pairwise distinct and
strictly increasing in the underlying counter; the counters never
decrease under any command, so an identifier is never reissued even after
its node or edge is deleted. -/
theorem C5_allocator (g : Graph) (k : Nat) :
    (g.issue_node_ids k).1
      = (List.range k).map (fun i => "n" ++ Nat.repr (g.node_high_water + i)) ∧
    (g.issue_node_ids k).1.Nodup ∧
    (g.issue_node_ids k).2.node_high_water = g.node_high_water + k ∧
    (g.issue_edge_ids k).1
      = (List.range k).map (fun i => "e" ++ Nat.repr (g.edge_high_water + i)) ∧
    (g.issue_edge_ids k).1.Nodup ∧
    (g.issue_edge_ids k).2.edge_high_water = g.edge_high_water + k ∧
    (∀ c : GraphCommand,
      g.node_high_water ≤ (g.apply_command c).1.node_high_water ∧
      g.edge_high_water ≤ (g.apply_command c).1.edge_high_water) := by
  have hn := issue_node_ids_spec k g
  have he := issue_edge_ids_spec k g
  have hn1 : (g.issue_node_ids k).1
      = (List.range k).map (fun i => "n" ++ Nat.repr (g.node_high_water + i)) := by
    rw [hn]
  have hn2 : (g.issue_node_ids k).2.node_high_water = g.node_high_water + k := by
    rw [hn]
  have he1 : (g.issue_edge_ids k).1
      = (List.range k).map (fun i => "e" ++ Nat.repr (g.edge_high_water + i)) := by
    rw [he]
  have he2 : (g.issue_edge_ids k).2.edge_high_water = g.edge_high_water + k := by
    rw [he]
  refine ⟨hn1, ?_, hn2, he1, ?_, he2, high_water_monotone g⟩
  · rw [hn1]
    exact (List.nodup_range k).map (prefix_counter_injective "n" g.node_high_water)
  · rw [he1]
    exact (List.nodup_range k).map (prefix_counter_injective "e" g.edge_high_water)

/-! ### Export: the callback trace -/

theorem foldl_append_map (f : α → β) :
    ∀ (l : List α) (t : List β),
      l.foldl (fun s x => s ++ [f x]) t = t ++ l.map f := by
  intro l
  induction l with
  | nil => intro t; simp
  | cons x xs ih =>
    intro t
    rw [List.foldl_cons, ih]
    simp

theorem export_trace (g : Graph) (t : List ExportEvent) :
    g.export traceExporter t
      = t ++ g.nodes.map (fun n => ExportEvent.addNode [n.id, n.label])
          ++ g.edges.map (fun e => ExportEvent.addEdge [e.«from», e.«to»]) := by
  show g.edges.foldl (fun s e => s ++ [ExportEvent.addEdge [e.«from», e.«to»]])
      (g.nodes.foldl (fun s n => s ++ [ExportEvent.addNode [n.id, n.label]]) t) = _
  rw [foldl_append_map (fun n => ExportEvent.addNode [n.id, n.label]) g.nodes t,
    foldl_append_map (fun e => ExportEvent.addEdge [e.«from», e.«to»]) g.edges _]

/-- C8 (amended): during export the node callback fires once per node, in
creation order, with the node's current id and label; then the edge
callback fires once per edge, in creation order, with the edge's current
`from` and `to` (the edge's own id is not passed); nothing else fires. -/
theorem C8_export_order (g : Graph) :
    g.export traceExporter []
      = g.nodes.map (fun n => ExportEvent.addNode [n.id, n.label])
          ++ g.edges.map (fun e => ExportEvent.addEdge [e.«from», e.«to»]) := by
  rw [export_trace g [], List.nil_append]

/-- C8, as frozen, predicts that the edge callback receives the edge's
field values including its id: on a graph with edge `e0 : n0 → n1` no
callback carrying `"e0"` occurs; the edge event carries only `from`/`to`. -/
theorem C8_export_fields_counterexample :
    gEx.export traceExporter []
      = [ExportEvent.addNode ["n0", "abc"], ExportEvent.addNode ["n1", "def"],
         ExportEvent.addEdge ["n0", "n1"], ExportEvent.addEdge ["n1", "n0"]] ∧
    ExportEvent.addEdge ["e0", "n0", "n1"] ∉ gEx.export traceExporter [] := by
  decide

/-- C3 (amended): the Entity Store invokes the edge callback with two
pieces of data — the edge's `from` and `to`, not its id — and the
structured-text backend's `add_edge`, in annotated (debug) mode, renders
the id argument it is handed as the edge label. -/
theorem C3_add_edge (g : Graph) (ex : GraphVizExporter) (id fr t : String) :
    (∀ e ∈ g.edges,
      ExportEvent.addEdge [e.«from», e.«to»] ∈ g.export traceExporter []) ∧
    (ex.debug_mode = true →
      (ex.add_edge id fr t).inner_content
        = ex.inner_content ++ "    " ++ escape_id fr ++ " -> " ++ escape_id t
            ++ (" [label=" ++ id ++ "]") ++ ";\n") := by
  constructor
  · intro e he
    rw [export_trace g []]
    apply List.mem_append_right
    exact List.mem_map_of_mem _ he
  · intro hdebug
    simp [GraphVizExporter.add_edge, hdebug]

theorem C3_add_edge_witness :
    ExportEvent.addEdge ["n0", "n1"] ∈ gEx.export traceExporter [] ∧
    (GraphVizExporter.new.add_edge "e0" "n0" "n1").inner_content
      = "" ++ "    " ++ escape_id "n0" ++ " -> " ++ escape_id "n1"
          ++ (" [label=" ++ "e0" ++ "]") ++ ";\n" := by
  have h := C3_add_edge gEx GraphVizExporter.new "e0" "n0" "n1"
  exact ⟨h.1 { id := "e0", «from» := "n0", «to» := "n1" } (by decide), h.2 rfl⟩

/-- C3, as frozen, claims `add_edge` is invoked with three pieces of data
(id, from, to): on a graph whose only edge is `e0 : n0 → n1`, no callback
carrying the id `"e0"` occurs; the edge callback carries `from`/`to`. -/
theorem C3_add_edge_counterexample :
    ExportEvent.addEdge ["e0", "n0", "n1"] ∉
      (Graph.apply_all
        [GraphCommand.insertNode "x", GraphCommand.insertNode "y",
         GraphCommand.linkEdge "n0" "n1"]).export traceExporter [] ∧
    ExportEvent.addEdge ["n0", "n1"] ∈
      (Graph.apply_all
        [GraphCommand.insertNode "x", GraphCommand.insertNode "y",
         GraphCommand.linkEdge "n0" "n1"]).export traceExporter [] := by
  decide

/-- C9: the export callback sequence is a pure function of the graph's
node and edge sequences alone — two graphs agreeing on nodes and edges
(id counters may differ) drive any backend identically, so repeated
exports through freshly initialised backends are byte-identical. -/
theorem C9_export_deterministic (g1 g2 : Graph)
    (hn : g1.nodes = g2.nodes) (he : g1.edges = g2.edges) :
    ∀ (σ : Type) (E : ExporterImpl σ) (s : σ), g1.export E s = g2.export E s := by
  intro σ E s
  simp only [Graph.export, hn, he]

theorem C9_export_deterministic_witness :
    gEx.export traceExporter [] = gEx2.export traceExporter [] :=
  C9_export_deterministic gEx gEx2 rfl rfl (List ExportEvent) traceExporter []

/-! ### RenameNode (C6) and unknown-identifier commands (C7) -/

/-- C6 (amended): for a known id, `RenameNode` overwrites only that
node's label in place — its identifier, all other nodes, the entire edge
sequence and both id counters are unchanged; for an unknown id it reports
`Could not find node {id}` (the source capitalises the message) and
changes nothing. -/
theorem C6_rename_node (g : Graph) (id label : String) :
    (∀ idx node, g.find_node_idx id = some idx → g.nodes[idx]? = some node →
      g.apply_command (GraphCommand.renameNode id label)
        = ({ g with nodes := g.nodes.set idx { node with label := label } },
           "Node " ++ id ++ " renamed to \x27" ++ label ++ "\x27") ∧
      (g.apply_command (GraphCommand.renameNode id label)).1.nodes.map Node.id
        = g.nodes.map Node.id ∧
      (g.apply_command (GraphCommand.renameNode id label)).1.edges = g.edges ∧
      (g.apply_command (GraphCommand.renameNode id label)).1.node_high_water
        = g.node_high_water ∧
      (g.apply_command (GraphCommand.renameNode id label)).1.edge_high_water
        = g.edge_high_water) ∧
    (g.find_node_idx id = none →
      g.apply_command (GraphCommand.renameNode id label)
        = (g, "Could not find node " ++ id)) := by
  constructor
  · intro idx node hfind hget
    have happ : g.apply_command (GraphCommand.renameNode id label)
        = ({ g with nodes := g.nodes.set idx { node with label := label } },
           "Node " ++ id ++ " renamed to \x27" ++ label ++ "\x27") := by
      simp [Graph.apply_command, hfind, hget, CommandResult.new]
    have hids : (g.nodes.set idx { node with label := label }).map Node.id
        = g.nodes.map Node.id := by
      rw [List.map_set]
      show (g.nodes.map Node.id).set idx node.id = g.nodes.map Node.id
      apply set_get?_self
      rw [List.getElem?_map Node.id g.nodes idx, hget]
      rfl
    refine ⟨happ, ?_, ?_, ?_, ?_⟩
    · rw [happ]
      exact hids
    · rw [happ]
    · rw [happ]
    · rw [happ]
  · intro hfind
    simp [Graph.apply_command, hfind, CommandResult.new]

/-- C6, as frozen, quotes the unknown-id message as lowercase
`could not find node {id}`; the code emits it with a capital C. -/
theorem C6_rename_message_counterexample :
    (Graph.new.apply_command (GraphCommand.renameNode "n0" "x")).2
        = "Could not find node n0" ∧
    (Graph.new.apply_command (GraphCommand.renameNode "n0" "x")).2
        ≠ "could not find node n0" := by decide

theorem C6_rename_node_witness :
    gEx.apply_command (GraphCommand.renameNode "n0" "xyz")
      = ({ gEx with nodes := gEx.nodes.set 0 { id := "n0", label := "xyz" } },
         "Node n0 renamed to \x27xyz\x27") ∧
    Graph.new.apply_command (GraphCommand.renameNode "n0" "xyz")
      = (Graph.new, "Could not find node n0") := by
  have h := C6_rename_node gEx "n0" "xyz"
  have h2 := C6_rename_node Graph.new "n0" "xyz"
  refine ⟨?_, h2.2 (by decide)⟩
  have heq := (h.1 0 { id := "n0", label := "abc" } (by decide) (by decide)).1
  rw [heq]
  rfl

theorem hasSub_append (n : List Char) :
    ∀ (a b : List Char), hasSub b n = true → hasSub (a ++ b) n = true := by
  intro a
  induction a with
  | nil => intro b h; simpa using h
  | cons x a ih =>
    intro b h
    rw [List.cons_append, hasSub]
    by_cases hs : startsWith (x :: (a ++ b)) n
    · rw [if_pos hs]
    · rw [if_neg hs]
      show hasSub (a ++ b) n = true
      exact ih b h

/-- C7 (amended): applying `DeleteNode`, `RenameNode` or `UnlinkEdge`
with an unknown identifier leaves the graph completely unchanged (nodes,
edges and both id counters) and only returns a plain-text message; the
`DeleteNode` and `UnlinkEdge` messages contain the text `not found`
verbatim, while `RenameNode` words it as `Could not find node {id}`. -/
theorem C7_unknown_id (g : Graph) (id label : String) :
    (g.find_node_idx id = none →
      g.apply_command (GraphCommand.deleteNode id)
        = (g, "node " ++ id ++ " not found") ∧
      g.apply_command (GraphCommand.renameNode id label)
        = (g, "Could not find node " ++ id) ∧
      hasSub ("node " ++ id ++ " not found").data ("not found").data = true) ∧
    (g.find_edge_idx id = none →
      g.apply_command (GraphCommand.unlinkEdge id)
        = (g, "edge " ++ id ++ " not found") ∧
      hasSub ("edge " ++ id ++ " not found").data ("not found").data = true) := by
  constructor
  · intro hfind
    refine ⟨?_, ?_, ?_⟩
    · simp [Graph.apply_command, hfind, CommandResult.new]
    · simp [Graph.apply_command, hfind, CommandResult.new]
    · rw [string_data_append ("node " ++ id) " not found"]
      apply hasSub_append
      decide
  · intro hfind
    refine ⟨?_, ?_⟩
    · simp [Graph.apply_command, hfind, CommandResult.new]
    · rw [string_data_append ("edge " ++ id) " not found"]
      apply hasSub_append
      decide

/-- C7, as frozen, says all three unknown-identifier commands answer with
a plain-text 'not found' message: `RenameNode`'s actual message,
`Could not find node {id}`, does not contain the text "not found". -/
theorem C7_not_found_counterexample :
    (Graph.new.apply_command (GraphCommand.renameNode "n0" "x")).2
        = "Could not find node n0" ∧
    hasSub ("Could not find node n0").data ("not found").data = false := by
  decide

theorem C7_unknown_id_witness :
    Graph.new.apply_command (GraphCommand.deleteNode "n7")
        = (Graph.new, "node n7 not found") ∧
    Graph.new.apply_command (GraphCommand.renameNode "n7" "x")
        = (Graph.new, "Could not find node n7") ∧
    Graph.new.apply_command (GraphCommand.unlinkEdge "e7")
        = (Graph.new, "edge e7 not found") := by
  have h := C7_unknown_id Graph.new "n7" "x"
  have h2 := C7_unknown_id Graph.new "e7" "x"
  exact ⟨(h.1 (by decide)).1, (h.1 (by decide)).2.1, (h2.2 (by decide)).1⟩

end Microdot
